import Mathlib

/-!
Verification of the resilient news fetch client (`fetchNews`) and the
response validator (`isSuccessResponse` / `processNewsData`) of the
daily-news MCP server, against its natural-language specification.

The TypeScript source is shallowly embedded:

* JSON values decoded from the HTTP body (`response.json()`) become the
  inductive type `Json`; JavaScript truthiness, `typeof x === 'object'`,
  the `in` operator and member access are modelled by `jsTruthy`,
  `typeofIsObject`, `hasKey` and `jsMember`.
* One attempt of the retry loop observes the transport through an oracle
  `transport : Nat → AttemptOutcome`: either the `fetch`/`response.json()`
  call throws (`fetchThrow` carries the thrown error's `.message`;
  timeout-triggered aborts are such throws), or a response arrives with an
  HTTP status, a status text, and a body that either decodes to a `Json`
  value or throws while decoding (`Except.error` with the error message).
* The `for (let attempt = 1; attempt <= retries; attempt++)` loop of
  `fetchNews` becomes the recursion `fetchGo`; besides the returned value
  it records the number of attempts performed and the chronological list
  of backoff delays (milliseconds) slept, so that timing-policy claims
  are statable.
* `new Date().toISOString()` is modelled by a parameter `now`; `console`
  logging has no semantic effect and is dropped.
-/

/-- JSON values as decoded by `response.json()`. Objects are association
lists; bodies produced by JSON decoding have pairwise distinct keys, and
member lookup takes the first binding. -/
inductive Json where
  | null : Json
  | bool (b : Bool) : Json
  | num (n : Int) : Json
  | str (s : String) : Json
  | arr (items : List Json) : Json
  | obj (fields : List (String × Json)) : Json

/-- JavaScript truthiness of a JSON value (`if (x)`, `x || y`). -/
def jsTruthy : Json → Bool
  | Json.null => false
  | Json.bool b => b
  | Json.num n => n != 0
  | Json.str s => s != ""
  | Json.arr _ => true
  | Json.obj _ => true

/-- JavaScript `typeof x === 'object'`: true for objects, arrays and null. -/
def typeofIsObject : Json → Bool
  | Json.null => true
  | Json.arr _ => true
  | Json.obj _ => true
  | _ => false

/-- Member access `x.k` on a decoded JSON value: a field of an object,
`undefined` (`none`) otherwise. (On `null` JavaScript throws instead; the
one place the source dereferences a possibly-null value, `data.message`,
is modelled explicitly in `runAttempt`.) -/
def jsMember : Json → String → Option Json
  | Json.obj fields, k => fields.lookup k
  | _, _ => none

/-- The JavaScript `'k' in x` test for values produced by JSON decoding:
key presence on objects; JSON-decoded arrays and primitives have no such
property. -/
def hasKey (j : Json) (k : String) : Bool :=
  (jsMember j k).isSome

/-- `Array.isArray` applied to the result of a member access. -/
def isArrayOpt : Option Json → Bool
  | some (Json.arr _) => true
  | _ => false

/-- Whether a JSON value is `null`. -/
def Json.isNull : Json → Bool
  | Json.null => true
  | _ => false

/-- Line 133 of the source, the validation guard of `fetchNews`:
`!data || typeof data !== 'object' || !('data' in data) ||
!Array.isArray(data.data)`. -/
def invalidShape (d : Json) : Bool :=
  !jsTruthy d || !typeofIsObject d || !hasKey d "data" || !isArrayOpt (jsMember d "data")

/-- The source's `isSuccessResponse` (line 172):
`'data' in response && Array.isArray(response.data)`. -/
def isSuccessResponse (r : Json) : Bool :=
  hasKey r "data" && isArrayOpt (jsMember r "data")

/-- The source's `processNewsData` (line 179): the `data` array of a
success response, `[]` for anything else. -/
def processNewsData (r : Json) : List Json :=
  if isSuccessResponse r then
    match jsMember r "data" with
    | some (Json.arr items) => items
    | _ => []
  else []

/-- Base URL of the upstream news API. -/
def API_BASE_URL : String := "http://116.62.41.253:6060/api/news"

/-- JavaScript truthiness of the optional `category` number: absent, and
the number `0`, are falsy. -/
def categoryTruthy : Option Int → Bool
  | some c => c != 0
  | none => false

/-- JavaScript truthiness of the optional `date` string: absent, and the
empty string, are falsy. -/
def dateTruthy : Option String → Bool
  | some d => d != ""
  | none => false

/-- Lines 93-101 of the source: the query-string suffix appended to
`API_BASE_URL`. `if (category)` and `if (date)` are JavaScript truthiness
tests, so a zero category or an empty date string is omitted exactly like
an absent one. -/
def buildQuery (category : Option Int) (date : Option String) : String :=
  let q := if categoryTruthy category then "?category=" ++ toString (category.getD 0) else ""
  if dateTruthy date then
    q ++ (if categoryTruthy category then "&date=" else "?date=") ++ date.getD ""
  else q

/-- The full request URL. -/
def buildUrl (category : Option Int) (date : Option String) : String :=
  API_BASE_URL ++ buildQuery category date

/-- Line 103: `requestPath = url.replace(API_BASE_URL, '')`, i.e. the
query-string suffix of the URL. -/
def requestPathOf (category : Option Int) (date : Option String) : String :=
  buildQuery category date

/-- What the transport does on one attempt: the `fetch` call (or the
subsequent `response.json()` decode, via `Except.error`) throws with the
given error message, or a response arrives with an HTTP status code,
status text, and decoded body. -/
inductive AttemptOutcome where
  | fetchThrow (msg : String) : AttemptOutcome
  | resp (status : Nat) (statusText : String) (body : Except String Json) : AttemptOutcome

/-- `response.ok` of node-fetch: status in the 2xx success range. -/
def statusOk (status : Nat) : Bool :=
  200 ≤ status && status < 300

/-- Line 126's fallback message: `API请求失败: ${status} ${statusText}`. -/
def genericStatusMessage (status : Nat) (statusText : String) : String :=
  "API请求失败: " ++ toString status ++ " " ++ statusText

/-- Line 136's fixed invalid-shape diagnostic. -/
def invalidShapeMessage : String := "API响应格式错误: 无效的数据结构"

/-- Line 163's fallback when no transport error was captured. -/
def unknownErrorMessage : String := "未知错误"

/-- Message of the TypeError raised by `data.message` when the decoded
body is `null`. -/
def nullMemberErrorMessage : String :=
  "Cannot read properties of null (reading 'message')"

/-- The error object fetchNews builds on every failure path:
`{ code, error, timestamp, path }`. -/
def mkErrorResponse (code : Nat) (error : Json) (timestamp : String) (path : String) : Json :=
  Json.obj [("code", Json.num code), ("error", error),
    ("timestamp", Json.str timestamp), ("path", Json.str path)]

/-- Line 126: `data.message || generic` for a non-null decoded body — the
`message` member if it is truthy, the generic status message otherwise.
The `error` key of the body is never consulted. -/
def extractedErrorMessage (data : Json) (status : Nat) (statusText : String) : Json :=
  match jsMember data "message" with
  | some v => if jsTruthy v then v else Json.str (genericStatusMessage status statusText)
  | none => Json.str (genericStatusMessage status statusText)

/-- One iteration of the `try` block (lines 106-142): either the attempt
resolves with a returned `ApiResponse` value (`Sum.inl`), or an error is
thrown and caught by the `catch` block (`Sum.inr` carries its message). -/
def runAttempt (now path : String) (a : AttemptOutcome) : Sum Json String :=
  match a with
  | AttemptOutcome.fetchThrow msg => Sum.inr msg
  | AttemptOutcome.resp status statusText body =>
    match body with
    | Except.error msg => Sum.inr msg
    | Except.ok data =>
      if statusOk status = false then
        if data.isNull then Sum.inr nullMemberErrorMessage
        else Sum.inl (mkErrorResponse status (extractedErrorMessage data status statusText) now path)
      else if invalidShape data then
        Sum.inl (mkErrorResponse 500 (Json.str invalidShapeMessage) now path)
      else
        Sum.inl data

/-- Observable outcome of a `fetchNews` call: the returned `ApiResponse`
value, the number of attempts performed, and the chronological list of
backoff delays (in milliseconds) slept between attempts. -/
structure FetchResult where
  result : Json
  attemptsMade : Nat
  delays : List Nat

/-- Line 163: `lastError?.message || '未知错误'` — the captured message if
truthy (non-empty), the generic unknown-error message otherwise. -/
def exhaustMessage : Option String → String
  | some m => if m != "" then m else unknownErrorMessage
  | none => unknownErrorMessage

/-- The retry loop of `fetchNews` (lines 91-166) from iteration `attempt`
on: while `attempt <= retries`, run one attempt; a resolved attempt
returns its value immediately; a caught error updates `lastError`, sleeps
`attempt * 1000` ms when `attempt < retries`, and continues; when the
loop exits, the exhaustion failure of lines 161-166 is returned with the
`requestPath` current at that point. -/
def fetchGo (transport : Nat → AttemptOutcome) (now path : String) (retries : Int)
    (attempt : Int) (lastError : Option String) (requestPath : String) : FetchResult :=
  if _h : attempt ≤ retries then
    match runAttempt now path (transport attempt.toNat) with
    | Sum.inl result => ⟨result, 1, []⟩
    | Sum.inr errMsg =>
      let rest := fetchGo transport now path retries (attempt + 1) (some errMsg) path
      if attempt < retries then
        ⟨rest.result, rest.attemptsMade + 1, attempt.toNat * 1000 :: rest.delays⟩
      else
        ⟨rest.result, rest.attemptsMade + 1, rest.delays⟩
  else
    ⟨mkErrorResponse 500 (Json.str (exhaustMessage lastError)) now requestPath, 0, []⟩
termination_by (retries + 1 - attempt).toNat
decreasing_by omega

/-- The source's `fetchNews(category?, date?, retries = 3)`: uses the
transport oracle from attempt 1, with `lastError = null` and
`requestPath = ''` initially. -/
def fetchNews (category : Option Int) (date : Option String) (retries : Int)
    (transport : Nat → AttemptOutcome) (now : String) : FetchResult :=
  fetchGo transport now (requestPathOf category date) retries 1 none ""

/-- A performed attempt on which the transport returned an HTTP-success
response whose decoded body is a mapping containing a list-typed `data`
field. -/
def goodAttempt (transport : Nat → AttemptOutcome) (n : Nat) : Prop :=
  ∃ s stx b, transport n = AttemptOutcome.resp s stx (Except.ok b) ∧
    statusOk s = true ∧ isSuccessResponse b = true

/-- Split a character list at every occurrence of `c` (the separator is
dropped; the result is never empty). Used to model query-string parsing,
which the claims state but the source does not implement. -/
def splitOnChar (c : Char) : List Char → List (List Char)
  | [] => [[]]
  | x :: xs =>
    match splitOnChar c xs with
    | [] => [[x]]
    | r :: rs => if x = c then [] :: r :: rs else (x :: r) :: rs

/-- Read one `key=value` segment of a query string: the key is everything
before the first `=`, the value everything after it (empty when there is
no `=`). -/
def splitPair (seg : List Char) : String × String :=
  (String.mk (seg.takeWhile (fun ch => ch != '=')),
    String.mk ((seg.dropWhile (fun ch => ch != '=')).drop 1))

/-- Modelled from the spec: parse the query part of a URL — drop a
leading `?`, split on `&`, and read each segment as `key=value`. The
source builds query strings but never parses them; this parser realizes
the spec's round-trip property. -/
def parseQuery (s : String) : List (String × String) :=
  match s.data with
  | [] => []
  | ch :: rest =>
    (splitOnChar '&' (if ch = '?' then rest else ch :: rest)).map splitPair

/-! ### Concrete transports used as witnesses and counterexamples -/

/-- An upstream error body that uses the `error` key only. -/
def bodyWithErrorKey : Json := Json.obj [("error", Json.str "boom")]

/-- An upstream error body that uses the `message` key. -/
def bodyWithMessageKey : Json := Json.obj [("message", Json.str "down")]

/-- An HTTP-success body of the expected shape. -/
def wellShapedBody : Json :=
  Json.obj [("code", Json.num 200), ("data", Json.arr [Json.str "a", Json.str "b"]),
    ("pagination", Json.obj [])]

/-- The spec's example of a malformed success body. -/
def badShapeBody : Json := Json.obj [("unexpected", Json.str "shape")]

/-- Transport that always answers 404 with an `error`-keyed body. -/
def trErrorKey : Nat → AttemptOutcome :=
  fun _ => AttemptOutcome.resp 404 "Not Found" (Except.ok bodyWithErrorKey)

/-- Transport that always answers 503 with a `message`-keyed body. -/
def trMessageKey : Nat → AttemptOutcome :=
  fun _ => AttemptOutcome.resp 503 "Service Unavailable" (Except.ok bodyWithMessageKey)

/-- Transport that always answers 200 with a well-shaped body. -/
def trWellShaped : Nat → AttemptOutcome :=
  fun _ => AttemptOutcome.resp 200 "OK" (Except.ok wellShapedBody)

/-- Transport that always answers 200 with a malformed body. -/
def trBadShape : Nat → AttemptOutcome :=
  fun _ => AttemptOutcome.resp 200 "OK" (Except.ok badShapeBody)

/-- Transport whose every call throws a connection error. -/
def trConnRefused : Nat → AttemptOutcome :=
  fun _ => AttemptOutcome.fetchThrow "connect ECONNREFUSED"

/-- Transport whose every call throws an error with an empty message. -/
def trEmptyThrow : Nat → AttemptOutcome :=
  fun _ => AttemptOutcome.fetchThrow ""

/-- Transport that always answers 502 with a body that fails to decode. -/
def trBadJson : Nat → AttemptOutcome :=
  fun _ => AttemptOutcome.resp 502 "Bad Gateway" (Except.error "invalid json")

/-! ## Basic facts about response shapes and single attempts -/

/-- The error objects built by `fetchNews` have no `data` field, so they
are never classified as success responses. -/
theorem isSuccessResponse_mkErrorResponse (code : Nat) (msg : Json) (ts p : String) :
    isSuccessResponse (mkErrorResponse code msg ts p) = false := by
  simp [isSuccessResponse, mkErrorResponse, hasKey, jsMember, List.lookup]

/-- The validation guard of `fetchNews` rejects exactly the bodies that
`isSuccessResponse` rejects: both amount to "an object whose `data`
member is an array". -/
theorem invalidShape_eq_not_isSuccess (d : Json) :
    invalidShape d = !(isSuccessResponse d) := by
  cases d <;>
    simp [invalidShape, isSuccessResponse, jsTruthy, typeofIsObject, hasKey, jsMember,
      isArrayOpt]

/-- An attempt whose response is HTTP-success with a well-shaped body
resolves with exactly that body. -/
theorem runAttempt_good (now path : String) (a : AttemptOutcome) (s : Nat) (stx : String)
    (b : Json) (ha : a = AttemptOutcome.resp s stx (Except.ok b)) (hs : statusOk s = true)
    (hb : isSuccessResponse b = true) :
    runAttempt now path a = Sum.inl b := by
  subst ha
  have hinv : invalidShape b = false := by
    rw [invalidShape_eq_not_isSuccess, hb]; rfl
  simp [runAttempt, hs, hinv]

/-- Classification of resolved attempts: the returned value is either the
well-shaped body of an HTTP-success response, or one of the error objects
built from the current time and request path. -/
theorem runAttempt_inl_cases (now path : String) (a : AttemptOutcome) (res : Json)
    (h : runAttempt now path a = Sum.inl res) :
    (∃ s stx, a = AttemptOutcome.resp s stx (Except.ok res) ∧ statusOk s = true ∧
      isSuccessResponse res = true) ∨
    (∃ c m, res = mkErrorResponse c m now path) := by
  cases a with
  | fetchThrow msg => simp [runAttempt] at h
  | resp s stx body =>
    cases body with
    | error msg => simp [runAttempt] at h
    | ok data =>
      by_cases hs : statusOk s = false
      · by_cases hn : data.isNull = true
        · simp [runAttempt, hs, hn] at h
        · right
          simp only [Bool.not_eq_true] at hn
          simp only [runAttempt, hs, if_true, hn, Bool.false_eq_true, if_false,
            Sum.inl.injEq] at h
          exact ⟨s, extractedErrorMessage data s stx, h.symm⟩
      · simp only [Bool.not_eq_false] at hs
        by_cases hinv : invalidShape data = true
        · right
          simp only [runAttempt, hs, Bool.true_eq_false, if_false, hinv, if_true,
            Sum.inl.injEq] at h
          exact ⟨500, Json.str invalidShapeMessage, h.symm⟩
        · left
          simp only [Bool.not_eq_true] at hinv
          simp only [runAttempt, hs, Bool.true_eq_false, if_false, hinv,
            Bool.false_eq_true, Sum.inl.injEq] at h
          obtain rfl : data = res := h
          refine ⟨s, stx, rfl, hs, ?_⟩
          have hc := invalidShape_eq_not_isSuccess data
          rw [hinv] at hc
          simpa using hc.symm

/-! ## Structure of the retry loop -/

/-- When the loop guard fails, the exhaustion failure of lines 161-166 is
returned with no attempt and no delay. -/
theorem fetchGo_stop (transport : Nat → AttemptOutcome) (now path : String)
    (retries attempt : Int) (lastError : Option String) (requestPath : String)
    (h : ¬ attempt ≤ retries) :
    fetchGo transport now path retries attempt lastError requestPath =
      ⟨mkErrorResponse 500 (Json.str (exhaustMessage lastError)) now requestPath, 0, []⟩ := by
  rw [fetchGo]; simp [h]

/-- When the loop guard holds, at least one attempt is performed. -/
theorem fetchGo_attempts_pos (transport : Nat → AttemptOutcome) (now path : String)
    (retries attempt : Int) (lastError : Option String) (requestPath : String)
    (h : attempt ≤ retries) :
    1 ≤ (fetchGo transport now path retries attempt lastError requestPath).attemptsMade := by
  rw [fetchGo]
  simp only [h, dite_true]
  cases hf : runAttempt now path (transport attempt.toNat) with
  | inl v => simp
  | inr e => by_cases hlt : attempt < retries <;> simp [hlt]

/-- The backoff delays slept by the loop started at `attempt` are exactly
`attempt * 1000, (attempt+1) * 1000, …`, one for each attempt except the
last one performed. -/
theorem fetchGo_delays (transport : Nat → AttemptOutcome) (now path : String)
    (retries : Int) (attempt : Int) (lastError : Option String) (requestPath : String)
    (hone : 1 ≤ attempt) :
    (fetchGo transport now path retries attempt lastError requestPath).delays =
      (List.range ((fetchGo transport now path retries attempt lastError
        requestPath).attemptsMade - 1)).map (fun i => (attempt.toNat + i) * 1000) := by
  induction attempt, lastError, requestPath using fetchGo.induct transport now path retries with
  | case1 attempt lastError requestPath hle v hv =>
    rw [fetchGo]; simp [hle, hv]
  | case2 attempt lastError requestPath hle e hv hlt ih =>
    have h1 : (1:Int) ≤ attempt + 1 := by omega
    have ht := fetchGo_attempts_pos transport now path retries (attempt + 1) (some e) path
      (by omega)
    rw [fetchGo]
    simp only [hle, dite_true, hv, hlt, if_true]
    rw [ih h1]
    rcases Nat.exists_eq_add_of_le ht with ⟨k, hk⟩
    have ha : (attempt + 1).toNat = attempt.toNat + 1 := by omega
    rw [hk, ha, Nat.add_comm 1 k]
    simp only [Nat.add_sub_cancel, List.range_succ_eq_map, List.map_cons, List.map_map,
      List.cons.injEq]
    refine ⟨by simp, List.map_congr_left fun i _ => ?_⟩
    simp only [Function.comp]
    omega
  | case3 attempt lastError requestPath hle e hv hlt ih =>
    rw [fetchGo]
    simp only [hle, dite_true, hv, hlt, if_false]
    rw [fetchGo_stop transport now path retries (attempt + 1) (some e) path (by omega)]
    simp
  | case4 attempt lastError requestPath hle =>
    rw [fetchGo]; simp [hle]

/-- Master structure lemma for the loop started at `attempt`: every
attempt before the last one performed ended in a caught error, and either
the run ended because its last attempt resolved (returning exactly that
attempt's value), or every attempt performed was caught and the result is
a code-500 error object. -/
theorem fetchGo_run (transport : Nat → AttemptOutcome) (now path : String)
    (retries attempt : Int) (lastError : Option String) (requestPath : String)
    (hone : 1 ≤ attempt) :
    (∀ i : Nat, attempt.toNat ≤ i →
      i + 1 < attempt.toNat + (fetchGo transport now path retries attempt lastError
        requestPath).attemptsMade →
      (runAttempt now path (transport i)).isRight = true) ∧
    ((1 ≤ (fetchGo transport now path retries attempt lastError requestPath).attemptsMade ∧
        runAttempt now path (transport (attempt.toNat +
          (fetchGo transport now path retries attempt lastError requestPath).attemptsMade - 1)) =
          Sum.inl (fetchGo transport now path retries attempt lastError requestPath).result) ∨
      ((∀ i : Nat, attempt.toNat ≤ i →
          i < attempt.toNat + (fetchGo transport now path retries attempt lastError
            requestPath).attemptsMade →
          (runAttempt now path (transport i)).isRight = true) ∧
        ∃ msg p, (fetchGo transport now path retries attempt lastError requestPath).result =
          mkErrorResponse 500 (Json.str msg) now p)) := by
  induction attempt, lastError, requestPath using fetchGo.induct transport now path retries with
  | case1 attempt lastError requestPath hle v hv =>
    have heq : fetchGo transport now path retries attempt lastError requestPath = ⟨v, 1, []⟩ := by
      rw [fetchGo]; simp [hle, hv]
    rw [heq]
    constructor
    · intro i h1 h2
      simp only at h2
      omega
    · left
      refine ⟨le_refl 1, ?_⟩
      simpa [Nat.add_sub_cancel] using hv
  | case2 attempt lastError requestPath hle e hv hlt ih =>
    have h1 : (1:Int) ≤ attempt + 1 := by omega
    have ha : (attempt + 1).toNat = attempt.toNat + 1 := by omega
    have heq : fetchGo transport now path retries attempt lastError requestPath =
        ⟨(fetchGo transport now path retries (attempt + 1) (some e) path).result,
          (fetchGo transport now path retries (attempt + 1) (some e) path).attemptsMade + 1,
          attempt.toNat * 1000 ::
            (fetchGo transport now path retries (attempt + 1) (some e) path).delays⟩ := by
      rw [fetchGo]; simp [hle, hv, hlt]
    rw [heq]
    obtain ⟨ihpre, ihdisj⟩ := ih h1
    rw [ha] at ihpre ihdisj
    constructor
    · intro i hi1 hi2
      simp only at hi2
      rcases Nat.eq_or_lt_of_le hi1 with hcase | hcase
      · rw [← hcase, hv]; rfl
      · exact ihpre i (by omega) (by omega)
    · rcases ihdisj with ⟨hpos, hres⟩ | ⟨hall, msg, pp, hmsg⟩
      · left
        refine ⟨by simp, ?_⟩
        have hidx : attempt.toNat +
            ((fetchGo transport now path retries (attempt + 1) (some e) path).attemptsMade + 1)
              - 1 = attempt.toNat + 1 +
            (fetchGo transport now path retries (attempt + 1) (some e) path).attemptsMade - 1 := by
          omega
        simpa [hidx] using hres
      · right
        constructor
        · intro i hi1 hi2
          simp only at hi2
          rcases Nat.eq_or_lt_of_le hi1 with hcase | hcase
          · rw [← hcase, hv]; rfl
          · exact hall i (by omega) (by omega)
        · exact ⟨msg, pp, hmsg⟩
  | case3 attempt lastError requestPath hle e hv hlt ih =>
    have hstop := fetchGo_stop transport now path retries (attempt + 1) (some e) path (by omega)
    have heq : fetchGo transport now path retries attempt lastError requestPath =
        ⟨mkErrorResponse 500 (Json.str (exhaustMessage (some e))) now path, 1, []⟩ := by
      rw [fetchGo]
      simp [hle, hv, hlt, hstop]
    rw [heq]
    constructor
    · intro i h1 h2
      simp only at h2
      omega
    · right
      constructor
      · intro i hi1 hi2
        simp only at hi2
        have : i = attempt.toNat := by omega
        rw [this, hv]; rfl
      · exact ⟨exhaustMessage (some e), path, rfl⟩
  | case4 attempt lastError requestPath hle =>
    have heq : fetchGo transport now path retries attempt lastError requestPath =
        ⟨mkErrorResponse 500 (Json.str (exhaustMessage lastError)) now requestPath, 0, []⟩ :=
      fetchGo_stop transport now path retries attempt lastError requestPath hle
    rw [heq]
    constructor
    · intro i h1 h2
      simp only at h2
      omega
    · right
      constructor
      · intro i hi1 hi2
        simp only at hi2
        omega
      · exact ⟨exhaustMessage lastError, requestPath, rfl⟩

/-- Every value the loop can return is either a well-shaped success body
or one of the `{code, error, timestamp, path}` error objects stamped with
the current time. -/
theorem fetchGo_result_shape (transport : Nat → AttemptOutcome) (now path : String)
    (retries attempt : Int) (lastError : Option String) (requestPath : String)
    (hone : 1 ≤ attempt) :
    isSuccessResponse (fetchGo transport now path retries attempt lastError
      requestPath).result = true ∨
    ∃ code msg p, (fetchGo transport now path retries attempt lastError
      requestPath).result = mkErrorResponse code msg now p := by
  obtain ⟨-, hdisj⟩ := fetchGo_run transport now path retries attempt lastError requestPath hone
  rcases hdisj with ⟨-, hres⟩ | ⟨-, msg, p, hmk⟩
  · rcases runAttempt_inl_cases now path _ _ hres with ⟨s, stx, -, -, hsucc⟩ | ⟨c, m, hmk⟩
    · exact Or.inl hsucc
    · exact Or.inr ⟨c, m, path, hmk⟩
  · exact Or.inr ⟨500, Json.str msg, p, hmk⟩

/-! ## Claim theorems -/

/-- C2: a `fetchNews` call returns a Success (a value `isSuccessResponse`
accepts) iff some performed attempt yielded an HTTP-success response
whose decoded body is a mapping with a list-typed `data` field; any such
attempt is necessarily the last attempt performed (the first well-shaped
success short-circuits the remaining attempts) and its body is returned
unchanged; and whenever no such attempt occurred the returned value is a
Failure object `{code, error, timestamp, path}` stamped with the current
time. -/
theorem fetchNews_success_iff_goodAttempt (category : Option Int) (date : Option String)
    (retries : Int) (transport : Nat → AttemptOutcome) (now : String) :
    (isSuccessResponse (fetchNews category date retries transport now).result = true ↔
      ∃ n, 1 ≤ n ∧ n ≤ (fetchNews category date retries transport now).attemptsMade ∧
        goodAttempt transport n) ∧
    (∀ n, 1 ≤ n → n ≤ (fetchNews category date retries transport now).attemptsMade →
      goodAttempt transport n →
      n = (fetchNews category date retries transport now).attemptsMade ∧
      ∃ s stx, transport n = AttemptOutcome.resp s stx
        (Except.ok (fetchNews category date retries transport now).result)) ∧
    (isSuccessResponse (fetchNews category date retries transport now).result = false →
      ∃ code msg p, (fetchNews category date retries transport now).result =
        mkErrorResponse code msg now p) := by
  simp only [fetchNews]
  obtain ⟨hpre, hdisj⟩ := fetchGo_run transport now (requestPathOf category date) retries 1
    none "" (by omega)
  have htoNat : (1:Int).toNat = 1 := rfl
  rw [htoNat] at hpre hdisj
  set R := fetchGo transport now (requestPathOf category date) retries 1 none "" with hR
  have hlast : ∀ n, 1 ≤ n → n ≤ R.attemptsMade → goodAttempt transport n →
      n = R.attemptsMade ∧ runAttempt now (requestPathOf category date) (transport n) =
        Sum.inl R.result := by
    intro n hn1 hnt hgood
    obtain ⟨s, stx, b, htr, hs, hsucc⟩ := hgood
    have hrun : runAttempt now (requestPathOf category date) (transport n) = Sum.inl b :=
      runAttempt_good _ _ _ s stx b htr hs hsucc
    have hn_eq : n = R.attemptsMade := by
      by_contra hne
      have hlt : n + 1 < 1 + R.attemptsMade := by omega
      have := hpre n hn1 hlt
      rw [hrun] at this
      simp at this
    refine ⟨hn_eq, ?_⟩
    rcases hdisj with ⟨hpos, hres⟩ | ⟨hall, -⟩
    · have hidx : 1 + R.attemptsMade - 1 = R.attemptsMade := by omega
      rw [hidx] at hres
      rw [hn_eq, hres]
    · have := hall n hn1 (by omega)
      rw [hrun] at this
      simp at this
  refine ⟨⟨?_, ?_⟩, ?_, ?_⟩
  · intro hsucc
    rcases hdisj with ⟨hpos, hres⟩ | ⟨-, msg, p, hmk⟩
    · rcases runAttempt_inl_cases _ _ _ _ hres with ⟨s, stx, htr, hs, hgood⟩ | ⟨c, m, hmk⟩
      · refine ⟨1 + R.attemptsMade - 1, by omega, by omega, s, stx, R.result, htr, hs, hgood⟩
      · rw [hmk, isSuccessResponse_mkErrorResponse] at hsucc
        exact absurd hsucc (by simp)
    · rw [hmk, isSuccessResponse_mkErrorResponse] at hsucc
      exact absurd hsucc (by simp)
  · rintro ⟨n, hn1, hnt, hgood⟩
    obtain ⟨s, stx, b, htr, hs, hsucc⟩ := hgood
    obtain ⟨hn_eq, hres⟩ := hlast n hn1 hnt ⟨s, stx, b, htr, hs, hsucc⟩
    have hrun : runAttempt now (requestPathOf category date) (transport n) = Sum.inl b :=
      runAttempt_good _ _ _ s stx b htr hs hsucc
    rw [hrun] at hres
    obtain rfl : b = R.result := by injection hres
    exact hsucc
  · intro n hn1 hnt hgood
    obtain ⟨hn_eq, hres⟩ := hlast n hn1 hnt hgood
    obtain ⟨s, stx, b, htr, hs, hsucc⟩ := hgood
    have hrun : runAttempt now (requestPathOf category date) (transport n) = Sum.inl b :=
      runAttempt_good _ _ _ s stx b htr hs hsucc
    rw [hrun] at hres
    obtain rfl : b = R.result := by injection hres
    exact ⟨hn_eq, s, stx, htr⟩
  · intro hfail
    rcases fetchGo_result_shape transport now (requestPathOf category date) retries 1 none ""
        (by omega) with hsucc | hshape
    · rw [← hR] at hsucc
      rw [hsucc] at hfail
      exact absurd hfail (by simp)
    · exact hshape

/-- C5: the backoff delays slept by a `fetchNews` call are, in
chronological order, exactly `1000, 2000, …` milliseconds — `n * 1000` ms
after the `n`-th attempt for every performed attempt except the last one;
in particular no delay follows the final attempt, whether it resolves or
exhausts the budget. -/
theorem fetchNews_linear_backoff (category : Option Int) (date : Option String)
    (retries : Int) (transport : Nat → AttemptOutcome) (now : String) :
    (fetchNews category date retries transport now).delays =
      (List.range ((fetchNews category date retries transport now).attemptsMade - 1)).map
        (fun i => (i + 1) * 1000) := by
  simp only [fetchNews]
  rw [fetchGo_delays transport now (requestPathOf category date) retries 1 none "" (by omega)]
  exact List.map_congr_left fun i _ => by omega

/-- C7: `fetchNews` never throws across its public boundary — for every
request, retry budget and transport behavior it terminates (it is a total
function of the embedding) and the returned value is one of the two
`FetchOutcome` variants: a well-shaped success body, or a
`{code, error, timestamp, path}` failure object stamped with the current
time. -/
theorem fetchNews_total_outcome (category : Option Int) (date : Option String)
    (retries : Int) (transport : Nat → AttemptOutcome) (now : String) :
    isSuccessResponse (fetchNews category date retries transport now).result = true ∨
    ∃ code msg p, (fetchNews category date retries transport now).result =
      mkErrorResponse code msg now p := by
  simp only [fetchNews]
  exact fetchGo_result_shape transport now (requestPathOf category date) retries 1 none ""
    (by omega)

/-- C1 (amended): an attempt within the budget whose response has a
non-2xx status and a body that decodes to a non-null value terminates the
call immediately — no further attempt, no backoff delay — returning a
Failure carrying the upstream status code, the body's `message` field
when truthy and the generic status message otherwise (the `error` key is
never consulted), the current time and the request path. -/
theorem fetchGo_non2xx_immediate (transport : Nat → AttemptOutcome) (now path : String)
    (retries attempt : Int) (lastError : Option String) (requestPath : String)
    (status : Nat) (stx : String) (body : Json)
    (hle : attempt ≤ retries)
    (htr : transport attempt.toNat = AttemptOutcome.resp status stx (Except.ok body))
    (hs : statusOk status = false) (hnn : body.isNull = false) :
    fetchGo transport now path retries attempt lastError requestPath =
      ⟨mkErrorResponse status (extractedErrorMessage body status stx) now path, 1, []⟩ := by
  rw [fetchGo]
  simp [hle, htr, runAttempt, hs, hnn]

/-- C3: an attempt within the budget whose response is HTTP-success but
whose decoded body is not a mapping with a list-typed `data` field makes
`fetchNews` return immediately — exactly one attempt, no retry, no
delay — a Failure with code 500 and the fixed invalid-shape diagnostic. -/
theorem fetchNews_invalidShape_one_attempt (category : Option Int) (date : Option String)
    (retries : Int) (transport : Nat → AttemptOutcome) (now : String)
    (status : Nat) (stx : String) (body : Json)
    (h1 : 1 ≤ retries)
    (htr : transport 1 = AttemptOutcome.resp status stx (Except.ok body))
    (hs : statusOk status = true)
    (hb : isSuccessResponse body = false) :
    fetchNews category date retries transport now =
      ⟨mkErrorResponse 500 (Json.str invalidShapeMessage) now (requestPathOf category date),
        1, []⟩ := by
  have hinv : invalidShape body = true := by
    rw [invalidShape_eq_not_isSuccess, hb]; rfl
  simp only [fetchNews]
  rw [fetchGo]
  have htoNat : ((1:Int)).toNat = 1 := rfl
  simp [h1, htoNat, htr, runAttempt, hs, hinv]

/-- When every attempt from `attempt` up to the budget throws, the loop
returns the exhaustion failure built from the message of the last thrown
error, having performed all remaining attempts. -/
theorem fetchGo_allThrow (transport : Nat → AttemptOutcome) (now path : String)
    (retries attempt : Int) (lastError : Option String) (requestPath : String)
    (msgs : Nat → String)
    (hone : 1 ≤ attempt) (hle : attempt ≤ retries)
    (hall : ∀ i : Nat, attempt.toNat ≤ i → i ≤ retries.toNat →
      transport i = AttemptOutcome.fetchThrow (msgs i)) :
    (fetchGo transport now path retries attempt lastError requestPath).result =
      mkErrorResponse 500 (Json.str (exhaustMessage (some (msgs retries.toNat)))) now path ∧
    (fetchGo transport now path retries attempt lastError requestPath).attemptsMade =
      (retries + 1 - attempt).toNat := by
  induction attempt, lastError, requestPath using fetchGo.induct transport now path retries with
  | case1 attempt lastError requestPath hle2 v hv =>
    exfalso
    rw [hall attempt.toNat (by omega) (by omega)] at hv
    simp [runAttempt] at hv
  | case2 attempt lastError requestPath hle2 e hv hlt ih =>
    have heq : fetchGo transport now path retries attempt lastError requestPath =
        ⟨(fetchGo transport now path retries (attempt + 1) (some e) path).result,
          (fetchGo transport now path retries (attempt + 1) (some e) path).attemptsMade + 1,
          attempt.toNat * 1000 ::
            (fetchGo transport now path retries (attempt + 1) (some e) path).delays⟩ := by
      rw [fetchGo]
      simp only [hle2, dite_true, hv, hlt, if_true]
    rw [heq]
    obtain ⟨ihr, iht⟩ := ih (by omega) (by omega)
      (by intro i hi1 hi2; exact hall i (by omega) hi2)
    refine ⟨ihr, ?_⟩
    show (fetchGo transport now path retries (attempt + 1) (some e) path).attemptsMade + 1 = _
    rw [iht]
    omega
  | case3 attempt lastError requestPath hle2 e hv hlt ih =>
    have hthis := hall attempt.toNat (by omega) (by omega)
    have hrun : runAttempt now path (transport attempt.toNat) =
        Sum.inr (msgs attempt.toNat) := by rw [hthis]; rfl
    have hme : e = msgs attempt.toNat := Sum.inr.inj (hv.symm.trans hrun)
    have heqA : attempt = retries := by omega
    have hstop := fetchGo_stop transport now path retries (attempt + 1) (some e) path (by omega)
    have heq : fetchGo transport now path retries attempt lastError requestPath =
        ⟨mkErrorResponse 500 (Json.str (exhaustMessage (some e))) now path, 1, []⟩ := by
      rw [fetchGo]
      simp [hle2, hv, hlt, hstop]
    rw [heq]
    have hm : e = msgs retries.toNat := by rw [hme, heqA]
    rw [hm]
    refine ⟨rfl, ?_⟩
    show (1:Nat) = (retries + 1 - attempt).toNat
    omega
  | case4 attempt lastError requestPath hle2 =>
    exact absurd hle hle2

/-- C4 (amended): when every one of the `retries ≥ 1` attempts ends with
the transport call throwing, `fetchNews` performs all of them and returns
a Failure with code 500 whose message is the message of the last thrown
error when that message is non-empty and the generic unknown-error
message otherwise (the source applies a truthiness check to the captured
message), stamped with the current time and the request path. -/
theorem fetchNews_allThrow_exhaustion (category : Option Int) (date : Option String)
    (retries : Int) (transport : Nat → AttemptOutcome) (now : String) (msgs : Nat → String)
    (h1 : 1 ≤ retries)
    (hall : ∀ n : Nat, 1 ≤ n → n ≤ retries.toNat →
      transport n = AttemptOutcome.fetchThrow (msgs n)) :
    (fetchNews category date retries transport now).result =
      mkErrorResponse 500 (Json.str (exhaustMessage (some (msgs retries.toNat)))) now
        (requestPathOf category date) ∧
    (fetchNews category date retries transport now).attemptsMade = retries.toNat := by
  simp only [fetchNews]
  obtain ⟨hr, ht⟩ := fetchGo_allThrow transport now (requestPathOf category date) retries 1
    none "" msgs (by omega) h1 (by intro i hi1 hi2; exact hall i hi1 hi2)
  exact ⟨hr, by rw [ht]; omega⟩

/-- C9: an attempt within the budget whose response cannot be decoded as
JSON (the `response.json()` call throws) is treated as a transport-level
error even when the HTTP status is non-2xx, because the body is decoded
before the status is checked: when further attempts remain the call is
retried after the linear backoff delay, and on the last attempt the error
is folded into the code-500 exhaustion Failure rather than returned as a
Failure carrying the upstream status code. -/
theorem fetchGo_decodeError_retried (transport : Nat → AttemptOutcome) (now path : String)
    (retries attempt : Int) (lastError : Option String) (requestPath : String)
    (status : Nat) (stx m : String)
    (hone : 1 ≤ attempt) (hle : attempt ≤ retries)
    (htr : transport attempt.toNat = AttemptOutcome.resp status stx (Except.error m))
    (hs : statusOk status = false) :
    (attempt < retries →
      2 ≤ (fetchGo transport now path retries attempt lastError requestPath).attemptsMade ∧
      (fetchGo transport now path retries attempt lastError requestPath).delays.head? =
        some (attempt.toNat * 1000)) ∧
    (attempt = retries →
      fetchGo transport now path retries attempt lastError requestPath =
        ⟨mkErrorResponse 500 (Json.str (exhaustMessage (some m))) now path, 1, []⟩) := by
  constructor
  · intro hlt
    have heq : fetchGo transport now path retries attempt lastError requestPath =
        ⟨(fetchGo transport now path retries (attempt + 1) (some m) path).result,
          (fetchGo transport now path retries (attempt + 1) (some m) path).attemptsMade + 1,
          attempt.toNat * 1000 ::
            (fetchGo transport now path retries (attempt + 1) (some m) path).delays⟩ := by
      rw [fetchGo]
      simp only [hle, dite_true, htr, runAttempt, hlt, if_true]
    rw [heq]
    have hpos := fetchGo_attempts_pos transport now path retries (attempt + 1) (some m) path
      (by omega)
    exact ⟨by simp; omega, by simp⟩
  · intro heqA
    have hnlt : ¬ attempt < retries := by omega
    have hstop := fetchGo_stop transport now path retries (attempt + 1) (some m) path (by omega)
    rw [fetchGo]
    simp [hle, htr, runAttempt, hnlt, hstop]

/-- C10: calling `fetchNews` with a retry budget of zero or less performs
no transport call at all — the loop body never runs — and returns a
Failure with code 500, the generic unknown-error message, the current
timestamp, and the empty request path. -/
theorem fetchNews_nonpositive_retries (category : Option Int) (date : Option String)
    (retries : Int) (transport : Nat → AttemptOutcome) (now : String)
    (h : retries ≤ 0) :
    fetchNews category date retries transport now =
      ⟨mkErrorResponse 500 (Json.str unknownErrorMessage) now "", 0, []⟩ := by
  simp only [fetchNews]
  rw [fetchGo_stop transport now (requestPathOf category date) retries 1 none "" (by omega)]
  rfl

/-- C8: `isSuccessResponse` and `processNewsData` are pure total
functions of the embedding; on every Failure object `processNewsData`
returns the empty list, and on every Success outcome — any value whose
`data` member is an array, wherever that field sits among the object's
fields — `isSuccessResponse` answers true and `processNewsData` returns
the `data` items unchanged, in the same order. -/
theorem processNewsData_pure_total :
    (∀ (code : Nat) (msg : Json) (ts p : String),
      isSuccessResponse (mkErrorResponse code msg ts p) = false ∧
      processNewsData (mkErrorResponse code msg ts p) = []) ∧
    (∀ (j : Json) (items : List Json), jsMember j "data" = some (Json.arr items) →
      isSuccessResponse j = true ∧ processNewsData j = items) := by
  constructor
  · intro code msg ts p
    refine ⟨isSuccessResponse_mkErrorResponse code msg ts p, ?_⟩
    simp [processNewsData, isSuccessResponse_mkErrorResponse]
  · intro j items h
    have hs : isSuccessResponse j = true := by
      simp [isSuccessResponse, hasKey, h, isArrayOpt]
    exact ⟨hs, by simp [processNewsData, hs, h]⟩

/-- C8 witness: the upstream's documented success shape — `data` is the
second field of `wellShapedBody` — is a Success outcome whose items are
returned unchanged. -/
theorem processNewsData_pure_total_witness :
    isSuccessResponse wellShapedBody = true ∧
    processNewsData wellShapedBody = [Json.str "a", Json.str "b"] :=
  processNewsData_pure_total.2 wellShapedBody [Json.str "a", Json.str "b"] rfl

/-! ## Counterexamples and witnesses -/

/-- C1 counterexample: on a non-2xx response whose decoded body supplies
its error message under the `error` key (`{"error": "boom"}`), the
returned Failure carries the generic status-based message, not `boom` —
the extraction does not tolerate the `error` key. -/
theorem fetchNews_errorKey_not_extracted :
    (fetchNews none none 3 trErrorKey "T").result =
      mkErrorResponse 404 (Json.str (genericStatusMessage 404 "Not Found")) "T" "" ∧
    genericStatusMessage 404 "Not Found" ≠ "boom" := by
  constructor
  · simp [fetchNews, fetchGo, runAttempt, trErrorKey, bodyWithErrorKey, requestPathOf,
      buildQuery, categoryTruthy, dateTruthy, statusOk, Json.isNull, extractedErrorMessage,
      jsMember, List.lookup, jsTruthy, mkErrorResponse]
  · decide

/-- C1 witness for the amended theorem: a 503 response with body
`{"message": "down"}` on the first attempt yields an immediate Failure. -/
theorem fetchGo_non2xx_immediate_witness :
    fetchGo trMessageKey "T" "" 3 1 none "" =
      ⟨mkErrorResponse 503 (extractedErrorMessage bodyWithMessageKey 503 "Service Unavailable")
        "T" "", 1, []⟩ :=
  fetchGo_non2xx_immediate trMessageKey "T" "" 3 1 none "" 503 "Service Unavailable"
    bodyWithMessageKey (by decide) rfl rfl rfl

/-- C2 witness: a transport answering 200 with a well-shaped body on the
first attempt produces a Success. -/
theorem fetchNews_success_iff_goodAttempt_witness :
    isSuccessResponse (fetchNews none none 3 trWellShaped "T").result = true := by
  have heval : fetchNews none none 3 trWellShaped "T" = ⟨wellShapedBody, 1, []⟩ := by
    simp [fetchNews, fetchGo, runAttempt, trWellShaped, wellShapedBody, requestPathOf,
      buildQuery, categoryTruthy, dateTruthy, statusOk, Json.isNull, invalidShape,
      jsTruthy, typeofIsObject, hasKey, jsMember, List.lookup, isArrayOpt]
  exact (fetchNews_success_iff_goodAttempt none none 3 trWellShaped "T").1.mpr
    ⟨1, le_refl 1, by rw [heval], ⟨200, "OK", wellShapedBody, rfl, rfl, rfl⟩⟩

/-- C3 witness: a 200 response with body `{"unexpected": "shape"}` on the
first attempt yields the invalid-shape Failure with one attempt made. -/
theorem fetchNews_invalidShape_one_attempt_witness :
    fetchNews none none 3 trBadShape "T" =
      ⟨mkErrorResponse 500 (Json.str invalidShapeMessage) "T" (requestPathOf none none),
        1, []⟩ :=
  fetchNews_invalidShape_one_attempt none none 3 trBadShape "T" 200 "OK" badShapeBody
    (by decide) rfl rfl rfl

/-- C4 counterexample: when the only attempt throws an error whose
message is the empty string, an error was captured, yet the returned
Failure carries the generic unknown-error message instead of that (empty)
message. -/
theorem fetchNews_emptyThrowMessage_generic :
    (fetchNews none none 1 trEmptyThrow "T").result =
      mkErrorResponse 500 (Json.str unknownErrorMessage) "T" "" ∧
    unknownErrorMessage ≠ "" := by
  constructor
  · simp [fetchNews, fetchGo, runAttempt, trEmptyThrow, requestPathOf, buildQuery,
      categoryTruthy, dateTruthy, exhaustMessage]
  · decide

/-- C4 witness for the amended theorem: three connection-refused throws
exhaust a budget of 3 and surface the last error's message. -/
theorem fetchNews_allThrow_exhaustion_witness :
    (fetchNews none none 3 trConnRefused "T").result =
      mkErrorResponse 500 (Json.str (exhaustMessage (some "connect ECONNREFUSED"))) "T"
        (requestPathOf none none) ∧
    (fetchNews none none 3 trConnRefused "T").attemptsMade = (3:Int).toNat :=
  fetchNews_allThrow_exhaustion none none 3 trConnRefused "T" (fun _ => "connect ECONNREFUSED")
    (by decide) (fun _ _ _ => rfl)

/-- C9 witness: a 502 response whose body fails to decode is retried when
a second attempt remains, and folds into the exhaustion Failure on the
last attempt. -/
theorem fetchGo_decodeError_retried_witness :
    (((1:Int) < 2 →
      2 ≤ (fetchGo trBadJson "T" "" 2 1 none "").attemptsMade ∧
      (fetchGo trBadJson "T" "" 2 1 none "").delays.head? = some ((1:Int).toNat * 1000)) ∧
    ((1:Int) = 2 →
      fetchGo trBadJson "T" "" 2 1 none "" =
        ⟨mkErrorResponse 500 (Json.str (exhaustMessage (some "invalid json"))) "T" "",
          1, []⟩)) :=
  fetchGo_decodeError_retried trBadJson "T" "" 2 1 none "" 502 "Bad Gateway" "invalid json"
    (by decide) (by decide) rfl rfl

/-- C10 witness: a budget of 0 performs no attempt and returns the
generic Failure with the empty path. -/
theorem fetchNews_nonpositive_retries_witness :
    fetchNews (some 1) none 0 trWellShaped "T" =
      ⟨mkErrorResponse 500 (Json.str unknownErrorMessage) "T" "", 0, []⟩ :=
  fetchNews_nonpositive_retries (some 1) none 0 trWellShaped "T" (by decide)

/-! ## Query string building and parsing (C6) -/

/-- The result of splitting is never the empty list of segments. -/
theorem splitOnChar_ne_nil (c : Char) (l : List Char) : splitOnChar c l ≠ [] := by
  induction l with
  | nil => simp [splitOnChar]
  | cons x xs ih =>
    rcases hs : splitOnChar c xs with _ | ⟨r, rs⟩
    · exact absurd hs ih
    · simp only [splitOnChar, hs]
      split <;> simp

theorem splitOnChar_sepFree (c : Char) (l : List Char) (h : ∀ x ∈ l, x ≠ c) :
    splitOnChar c l = [l] := by
  induction l with
  | nil => rfl
  | cons x xs ih =>
    have hx : x ≠ c := h x (by simp)
    have hxs := ih (fun y hy => h y (by simp [hy]))
    simp only [splitOnChar, hxs]
    simp [hx]

theorem splitOnChar_append (c : Char) (l₁ l₂ : List Char) (h : ∀ x ∈ l₁, x ≠ c) :
    splitOnChar c (l₁ ++ c :: l₂) = l₁ :: splitOnChar c l₂ := by
  induction l₁ with
  | nil =>
    rw [List.nil_append]
    have step : splitOnChar c (c :: l₂) =
        match splitOnChar c l₂ with
        | [] => [[c]]
        | r :: rs => if c = c then [] :: r :: rs else (c :: r) :: rs := rfl
    rcases hs : splitOnChar c l₂ with _ | ⟨r, rs⟩
    · exact absurd hs (splitOnChar_ne_nil c l₂)
    · rw [step, hs]
      simp
  | cons x xs ih =>
    have hx : x ≠ c := h x (by simp)
    have hih := ih (fun y hy => h y (by simp [hy]))
    rw [List.cons_append]
    have step : splitOnChar c (x :: (xs ++ c :: l₂)) =
        match splitOnChar c (xs ++ c :: l₂) with
        | [] => [[x]]
        | r :: rs => if x = c then [] :: r :: rs else (x :: r) :: rs := rfl
    rw [step, hih]
    simp [hx]

theorem takeWhile_append_stop (p : Char → Bool) (k v : List Char) (y : Char)
    (hk : ∀ x ∈ k, p x = true) (hy : p y = false) :
    (k ++ y :: v).takeWhile p = k := by
  induction k with
  | nil => simp [List.takeWhile, hy]
  | cons x xs ih =>
    have hx := hk x (by simp)
    have hxs := ih (fun z hz => hk z (by simp [hz]))
    simp [List.takeWhile, hx, hxs]

theorem dropWhile_append_stop (p : Char → Bool) (k v : List Char) (y : Char)
    (hk : ∀ x ∈ k, p x = true) (hy : p y = false) :
    (k ++ y :: v).dropWhile p = y :: v := by
  induction k with
  | nil => simp [List.dropWhile, hy]
  | cons x xs ih =>
    have hx := hk x (by simp)
    have hxs := ih (fun z hz => hk z (by simp [hz]))
    simp [List.dropWhile, hx, hxs]

theorem splitPair_eq (key val : List Char) (hk : ∀ x ∈ key, x ≠ '=') :
    splitPair (key ++ '=' :: val) = (String.mk key, String.mk val) := by
  have hk' : ∀ x ∈ key, (x != '=') = true := by
    intro x hx; simpa using hk x hx
  simp [splitPair, takeWhile_append_stop _ key val '=' hk' (by simp),
    dropWhile_append_stop _ key val '=' hk' (by simp)]

theorem digitChar_sep (m : Nat) :
    Nat.digitChar m ≠ '&' ∧ Nat.digitChar m ≠ '=' ∧ Nat.digitChar m ≠ '?' := by
  rcases Nat.lt_or_ge m 16 with h | h
  · interval_cases m <;> decide
  · have hstar : Nat.digitChar m = '*' := by
      unfold Nat.digitChar
      repeat rw [if_neg (by omega)]
    rw [hstar]
    decide

theorem toDigitsCore_sep (b fuel n : Nat) (acc : List Char)
    (hacc : ∀ c ∈ acc, c ≠ '&' ∧ c ≠ '=' ∧ c ≠ '?') :
    ∀ c ∈ Nat.toDigitsCore b fuel n acc, c ≠ '&' ∧ c ≠ '=' ∧ c ≠ '?' := by
  induction fuel generalizing n acc with
  | zero => simpa [Nat.toDigitsCore] using hacc
  | succ fuel ih =>
    intro c hc
    simp only [Nat.toDigitsCore] at hc
    split at hc
    · rcases List.mem_cons.mp hc with rfl | hmem
      · exact digitChar_sep _
      · exact hacc c hmem
    · refine ih (n / b) ((n % b).digitChar :: acc) ?_ c hc
      intro x hx
      rcases List.mem_cons.mp hx with rfl | hmem
      · exact digitChar_sep _
      · exact hacc x hmem

theorem intToString_sep (v : Int) :
    ∀ c ∈ (toString v).data, c ≠ '&' ∧ c ≠ '=' ∧ c ≠ '?' := by
  have hnat : ∀ n : Nat, ∀ c ∈ (Nat.repr n).data, c ≠ '&' ∧ c ≠ '=' ∧ c ≠ '?' := by
    intro n c hc
    have hd : (Nat.repr n).data = Nat.toDigitsCore 10 (n + 1) n [] := rfl
    rw [hd] at hc
    exact toDigitsCore_sep 10 (n + 1) n [] (by simp) c hc
  intro c hc
  cases v with
  | ofNat n => exact hnat n c hc
  | negSucc n =>
    have hd : (toString (Int.negSucc n)).data = '-' :: (Nat.repr (n + 1)).data := by
      show (Int.repr (Int.negSucc n)).data = _
      rw [Int.repr, String.data_append]
      rfl
    rw [hd] at hc
    rcases List.mem_cons.mp hc with rfl | hmem
    · decide
    · exact hnat (n + 1) c hmem

theorem parse_dateOnly (d : String) (hdc : ∀ ch ∈ d.data, ch ≠ '&' ∧ ch ≠ '=' ∧ ch ≠ '?') :
    parseQuery ("?date=" ++ d) = [("date", d)] := by
  have hdata : ("?date=" ++ d).data = '?' :: ("date".data ++ '=' :: d.data) := rfl
  have hlit : ∀ x ∈ "date".data, x ≠ '&' := by decide
  have hsep : ∀ x ∈ "date".data ++ '=' :: d.data, x ≠ '&' := by
    intro x hx
    rcases List.mem_append.mp hx with hl | hr
    · exact hlit x hl
    · rcases List.mem_cons.mp hr with rfl | hm
      · decide
      · exact (hdc x hm).1
  simp only [parseQuery, hdata, if_true]
  rw [splitOnChar_sepFree '&' _ hsep]
  rw [List.map_cons, List.map_nil]
  rw [splitPair_eq "date".data d.data (by decide)]

theorem parse_catOnly (c : Int) :
    parseQuery ("?category=" ++ toString c) = [("category", toString c)] := by
  have hdata : ("?category=" ++ toString c).data =
      '?' :: ("category".data ++ '=' :: (toString c).data) := rfl
  have hlit : ∀ x ∈ "category".data, x ≠ '&' := by decide
  have hsep : ∀ x ∈ "category".data ++ '=' :: (toString c).data, x ≠ '&' := by
    intro x hx
    rcases List.mem_append.mp hx with hl | hr
    · exact hlit x hl
    · rcases List.mem_cons.mp hr with rfl | hm
      · decide
      · exact (intToString_sep c x hm).1
  simp only [parseQuery, hdata, if_true]
  rw [splitOnChar_sepFree '&' _ hsep]
  rw [List.map_cons, List.map_nil]
  rw [splitPair_eq "category".data (toString c).data (by decide)]

theorem parse_catDate (c : Int) (d : String)
    (hdc : ∀ ch ∈ d.data, ch ≠ '&' ∧ ch ≠ '=' ∧ ch ≠ '?') :
    parseQuery ("?category=" ++ toString c ++ "&date=" ++ d) =
      [("category", toString c), ("date", d)] := by
  have hdata : ("?category=" ++ toString c ++ "&date=" ++ d).data =
      '?' :: (("category".data ++ '=' :: (toString c).data) ++
        '&' :: ("date".data ++ '=' :: d.data)) := by
    simp only [String.data_append, List.append_assoc]
    rfl
  have hlitc : ∀ x ∈ "category".data, x ≠ '&' := by decide
  have hlitd : ∀ x ∈ "date".data, x ≠ '&' := by decide
  have hsep1 : ∀ x ∈ "category".data ++ '=' :: (toString c).data, x ≠ '&' := by
    intro x hx
    rcases List.mem_append.mp hx with hl | hr
    · exact hlitc x hl
    · rcases List.mem_cons.mp hr with rfl | hm
      · decide
      · exact (intToString_sep c x hm).1
  have hsep2 : ∀ x ∈ "date".data ++ '=' :: d.data, x ≠ '&' := by
    intro x hx
    rcases List.mem_append.mp hx with hl | hr
    · exact hlitd x hl
    · rcases List.mem_cons.mp hr with rfl | hm
      · decide
      · exact (hdc x hm).1
  simp only [parseQuery, hdata, if_true]
  rw [splitOnChar_append '&' _ _ hsep1]
  rw [splitOnChar_sepFree '&' _ hsep2]
  rw [List.map_cons, List.map_cons, List.map_nil]
  rw [splitPair_eq "category".data (toString c).data (by decide)]
  rw [splitPair_eq "date".data d.data (by decide)]

/-- C6 (amended): the query string built by `fetchNews` contains the
pair `category=<value>` exactly when the category field is present *and
non-zero*, and `date=<value>` exactly when the date field is present *and
non-empty* (the source tests both with JavaScript truthiness); for date
values free of the separator characters `&`, `=`, `?` (the spec's
`YYYY-MM-DD` form), parsing the constructed URL's query recovers exactly
the non-omitted fields with their values. -/
theorem buildQuery_parse_roundTrip (category : Option Int) (date : Option String)
    (hd : ∀ s, date = some s → ∀ ch ∈ s.data, ch ≠ '&' ∧ ch ≠ '=' ∧ ch ≠ '?') :
    parseQuery (requestPathOf category date) =
      (if categoryTruthy category then [("category", toString (category.getD 0))] else []) ++
      (if dateTruthy date then [("date", date.getD "")] else []) ∧
    (∀ w : String, ("category", w) ∈ parseQuery (requestPathOf category date) ↔
      ∃ v : Int, category = some v ∧ v ≠ 0 ∧ w = toString v) ∧
    (∀ w : String, ("date", w) ∈ parseQuery (requestPathOf category date) ↔
      date = some w ∧ w ≠ "") := by
  have hmain : parseQuery (requestPathOf category date) =
      (if categoryTruthy category then [("category", toString (category.getD 0))] else []) ++
      (if dateTruthy date then [("date", date.getD "")] else []) := by
    rcases category with _ | c
    · rcases date with _ | d
      · rfl
      · by_cases hde : d = ""
        · subst hde; rfl
        · have hq : requestPathOf none (some d) = "?date=" ++ d := by
            simp [requestPathOf, buildQuery, categoryTruthy, dateTruthy, hde]
          rw [hq, parse_dateOnly d (hd d rfl)]
          simp [categoryTruthy, dateTruthy, hde]
    · by_cases hc0 : c = 0
      · subst hc0
        rcases date with _ | d
        · rfl
        · by_cases hde : d = ""
          · subst hde; rfl
          · have hq : requestPathOf (some 0) (some d) = "?date=" ++ d := by
              simp [requestPathOf, buildQuery, categoryTruthy, dateTruthy, hde]
            rw [hq, parse_dateOnly d (hd d rfl)]
            simp [categoryTruthy, dateTruthy, hde]
      · rcases date with _ | d
        · have hq : requestPathOf (some c) none = "?category=" ++ toString c := by
            simp [requestPathOf, buildQuery, categoryTruthy, dateTruthy, hc0]
          rw [hq, parse_catOnly c]
          simp [categoryTruthy, dateTruthy, hc0]
        · by_cases hde : d = ""
          · subst hde
            have hq : requestPathOf (some c) (some "") = "?category=" ++ toString c := by
              simp [requestPathOf, buildQuery, categoryTruthy, dateTruthy, hc0]
            rw [hq, parse_catOnly c]
            simp [categoryTruthy, dateTruthy, hc0]
          · have hq : requestPathOf (some c) (some d) =
                "?category=" ++ toString c ++ "&date=" ++ d := by
              simp [requestPathOf, buildQuery, categoryTruthy, dateTruthy, hc0, hde]
            rw [hq, parse_catDate c d (hd d rfl)]
            simp [categoryTruthy, dateTruthy, hc0, hde]
  have hkey : ("category" : String) ≠ "date" := by decide
  refine ⟨hmain, ?_, ?_⟩
  · intro w
    rw [hmain]
    rcases category with _ | c
    · rcases date with _ | d
      · simp [categoryTruthy, dateTruthy]
      · by_cases hde : d = "" <;> simp [categoryTruthy, dateTruthy, hde, hkey]
    · by_cases hc0 : c = 0
      · subst hc0
        rcases date with _ | d
        · simp [categoryTruthy, dateTruthy]
        · by_cases hde : d = "" <;> simp [categoryTruthy, dateTruthy, hde, hkey]
      · rcases date with _ | d
        · simp [categoryTruthy, dateTruthy, hc0]
        · by_cases hde : d = "" <;> simp [categoryTruthy, dateTruthy, hc0, hde, hkey]
  · intro w
    rw [hmain]
    have hdate_iff : ∀ d : String, ¬ d = "" →
        ((w = d) ↔ (d = w ∧ ¬ w = "")) := by
      intro d hde
      constructor
      · intro h; subst h; exact ⟨rfl, hde⟩
      · intro hh; exact hh.1.symm
    rcases category with _ | c
    · rcases date with _ | d
      · simp [categoryTruthy, dateTruthy]
      · by_cases hde : d = ""
        · simp [categoryTruthy, dateTruthy, hde, hkey]
          exact fun h => h.symm
        · simp [categoryTruthy, dateTruthy, hde, hkey]
          exact hdate_iff d hde
    · by_cases hc0 : c = 0
      · subst hc0
        rcases date with _ | d
        · simp [categoryTruthy, dateTruthy]
        · by_cases hde : d = ""
          · simp [categoryTruthy, dateTruthy, hde, hkey]
            exact fun h => h.symm
          · simp [categoryTruthy, dateTruthy, hde, hkey]
            exact hdate_iff d hde
      · rcases date with _ | d
        · simp [categoryTruthy, dateTruthy, hc0]
        · by_cases hde : d = ""
          · simp [categoryTruthy, dateTruthy, hc0, hde, hkey]
            exact fun h => h.symm
          · simp [categoryTruthy, dateTruthy, hc0, hde, hkey]
            exact hdate_iff d hde


/-- C6 counterexample: a request whose category field is present with
value `0` produces an empty query string — no `category=0` pair — because
`if (category)` is a JavaScript truthiness test and `0` is falsy. -/
theorem buildQuery_category_zero_omitted :
    (some (0:Int)).isSome = true ∧ requestPathOf (some 0) none = "" ∧
    parseQuery (requestPathOf (some 0) none) = [] :=
  ⟨rfl, rfl, rfl⟩

/-- C6 witness: with category 2 and date `2025-01-01` both pairs are
recovered by parsing the built query string. -/
theorem buildQuery_parse_roundTrip_witness :
    parseQuery (requestPathOf (some 2) (some "2025-01-01")) =
      [("category", toString (2:Int)), ("date", "2025-01-01")] := by
  have h := buildQuery_parse_roundTrip (some 2) (some "2025-01-01")
    (by intro s hs ch hch; injection hs with h2; subst h2; revert hch; revert ch; decide)
  rw [h.1]
  rfl
